import Mathlib

/-!
Verification of the asynchronous request-coordination patterns from
`src/content/posts/async-abstractions-vanilla-javascript/index.mdx`.

The post defines three closures:

* `interruptibleRequestGen` (lines 64-81): the PreemptCoordinator.  A single
  `AbortController` and its `signal` are created once per generator call; the
  returned `makeRequest` aborts the controller when `currentRequest` is
  non-null, records the new `Request` in `currentRequest`, awaits
  `fetch(currentRequest)` and `response.json()` (both tied to the shared
  signal), then unconditionally runs `currentRequest = null` and returns.

* `controlledRequestGen`, automatic variant (lines 130-147): the
  GateCoordinator.  A closure variable `allowRequests` starts `true`; invoke
  checks it, sets it `false`, awaits the request, sets it back to `true` on
  success and returns the parsed result; when `allowRequests` is `false` it
  returns the literal `false`.

* `controlledRequestGen`, manual-release variant (lines 168-190): the same
  gate except completion never resets `allowRequests`; a separate exported
  closure `allowMoreRequests` sets it back to `true`.

The embedding models each closure as explicit state plus a step function over
events at the granularity of JavaScript's cooperative scheduling: code between
two `await` points runs atomically (promise reactions are microtasks, drained
before the next task can call `invoke`), and external completions are events.
Aborting the shared signal rejects every pending `fetch` and pending
`response.json()` body read tied to it, and a `fetch` started with an
already-aborted signal rejects immediately, as the Fetch specification
prescribes.
-/

inductive JsValue where
  | null
  | bool (b : Bool)
  | num (n : Int)
  | str (s : String)
deriving DecidableEq, Repr

inductive JsErr where
  | abortError
  | other (msg : String)
deriving DecidableEq, Repr

inductive JsOutcome where
  | resolved (v : JsValue)
  | rejected (e : JsErr)
deriving DecidableEq, Repr

def JsOutcome.isResolved : JsOutcome → Bool
  | .resolved _ => true
  | .rejected _ => false

inductive FetchStage where
  | fetching
  | jsonReading
deriving DecidableEq, Repr

structure InterruptibleState where
  aborted : Bool
  currentRequest : Option Nat
  pending : List (Nat × FetchStage)
  outcomes : List (Nat × JsOutcome)
deriving DecidableEq, Repr

def interruptibleInit : InterruptibleState :=
  { aborted := false, currentRequest := none, pending := [], outcomes := [] }

inductive IEvent where
  | invoke (id : Nat)
  | fetchArrive (id : Nat)
  | jsonOk (id : Nat) (v : JsValue)
  | extFail (id : Nat) (msg : String)
deriving DecidableEq, Repr

def interruptibleStep (s : InterruptibleState) : IEvent → InterruptibleState
  | .invoke id =>
      if s.currentRequest.isSome then
        { aborted := true
          currentRequest := some id
          pending := []
          outcomes :=
            (s.outcomes ++ s.pending.map fun p => (p.1, JsOutcome.rejected JsErr.abortError))
              ++ [(id, JsOutcome.rejected JsErr.abortError)] }
      else if s.aborted then
        { s with
            currentRequest := some id
            outcomes := s.outcomes ++ [(id, JsOutcome.rejected JsErr.abortError)] }
      else
        { s with
            currentRequest := some id
            pending := s.pending ++ [(id, FetchStage.fetching)] }
  | .fetchArrive id =>
      if (id, FetchStage.fetching) ∈ s.pending then
        { s with
            pending := s.pending.map fun p =>
              if p.1 = id then (id, FetchStage.jsonReading) else p }
      else s
  | .jsonOk id v =>
      if (id, FetchStage.jsonReading) ∈ s.pending then
        { s with
            pending := s.pending.filter fun p => p.1 != id
            currentRequest := none
            outcomes := s.outcomes ++ [(id, JsOutcome.resolved v)] }
      else s
  | .extFail id msg =>
      if id ∈ s.pending.map Prod.fst then
        { s with
            pending := s.pending.filter fun p => p.1 != id
            outcomes := s.outcomes ++ [(id, JsOutcome.rejected (JsErr.other msg))] }
      else s

def interruptibleRun (t : List IEvent) : InterruptibleState :=
  t.foldl interruptibleStep interruptibleInit

def InterruptibleState.outcome (s : InterruptibleState) (id : Nat) : Option JsOutcome :=
  s.outcomes.lookup id

def IGood (s : InterruptibleState) : Prop :=
  ∀ p ∈ s.pending, s.currentRequest = some p.1 ∧ s.aborted = false ∧ s.pending = [p]

structure ControlledState where
  allowRequests : Bool
  pending : List Nat
  outcomes : List (Nat × JsOutcome)
deriving DecidableEq, Repr

def controlledInit : ControlledState :=
  { allowRequests := true, pending := [], outcomes := [] }

inductive GEvent where
  | invoke (id : Nat)
  | settleOk (id : Nat) (v : JsValue)
  | settleErr (id : Nat) (msg : String)
deriving DecidableEq, Repr

def controlledStep (s : ControlledState) : GEvent → ControlledState
  | .invoke id =>
      if s.allowRequests then
        { s with allowRequests := false, pending := s.pending ++ [id] }
      else
        { s with outcomes := s.outcomes ++ [(id, JsOutcome.resolved (JsValue.bool false))] }
  | .settleOk id v =>
      if id ∈ s.pending then
        { allowRequests := true
          pending := s.pending.filter fun k => k != id
          outcomes := s.outcomes ++ [(id, JsOutcome.resolved v)] }
      else s
  | .settleErr id msg =>
      if id ∈ s.pending then
        { s with
            pending := s.pending.filter fun k => k != id
            outcomes := s.outcomes ++ [(id, JsOutcome.rejected (JsErr.other msg))] }
      else s

def controlledRun (t : List GEvent) : ControlledState :=
  t.foldl controlledStep controlledInit

def ControlledState.outcome (s : ControlledState) (id : Nat) : Option JsOutcome :=
  s.outcomes.lookup id

inductive MEvent where
  | invoke (id : Nat)
  | settleOk (id : Nat) (v : JsValue)
  | settleErr (id : Nat) (msg : String)
  | allowMoreRequests
deriving DecidableEq, Repr

def controlledManualStep (s : ControlledState) : MEvent → ControlledState
  | .invoke id =>
      if s.allowRequests then
        { s with allowRequests := false, pending := s.pending ++ [id] }
      else
        { s with outcomes := s.outcomes ++ [(id, JsOutcome.resolved (JsValue.bool false))] }
  | .settleOk id v =>
      if id ∈ s.pending then
        { s with
            pending := s.pending.filter fun k => k != id
            outcomes := s.outcomes ++ [(id, JsOutcome.resolved v)] }
      else s
  | .settleErr id msg =>
      if id ∈ s.pending then
        { s with
            pending := s.pending.filter fun k => k != id
            outcomes := s.outcomes ++ [(id, JsOutcome.rejected (JsErr.other msg))] }
      else s
  | .allowMoreRequests => { s with allowRequests := true }

def controlledManualRun (t : List MEvent) : ControlledState :=
  t.foldl controlledManualStep controlledInit

def GInv (s : ControlledState) : Prop :=
  ∀ id ∈ s.pending, s.allowRequests = false ∧ s.pending = [id]

structure CoordinatorWorld where
  interruptible : Nat → InterruptibleState
  controlled : Nat → ControlledState
  controlledManual : Nat → ControlledState

def worldInit : CoordinatorWorld :=
  { interruptible := fun _ => interruptibleInit
    controlled := fun _ => controlledInit
    controlledManual := fun _ => controlledInit }

inductive WEvent where
  | onInterruptible (i : Nat) (e : IEvent)
  | onControlled (i : Nat) (e : GEvent)
  | onControlledManual (i : Nat) (e : MEvent)

def worldStep (w : CoordinatorWorld) : WEvent → CoordinatorWorld
  | .onInterruptible i e =>
      { w with interruptible := fun k =>
          if k = i then interruptibleStep (w.interruptible i) e else w.interruptible k }
  | .onControlled i e =>
      { w with controlled := fun k =>
          if k = i then controlledStep (w.controlled i) e else w.controlled k }
  | .onControlledManual i e =>
      { w with controlledManual := fun k =>
          if k = i then controlledManualStep (w.controlledManual i) e else w.controlledManual k }

def worldRun (t : List WEvent) : CoordinatorWorld :=
  t.foldl worldStep worldInit

def projInterruptible (i : Nat) : List WEvent → List IEvent
  | [] => []
  | .onInterruptible j e :: rest =>
      if j = i then e :: projInterruptible i rest else projInterruptible i rest
  | _ :: rest => projInterruptible i rest

def projControlled (i : Nat) : List WEvent → List GEvent
  | [] => []
  | .onControlled j e :: rest =>
      if j = i then e :: projControlled i rest else projControlled i rest
  | _ :: rest => projControlled i rest

def projControlledManual (i : Nat) : List WEvent → List MEvent
  | [] => []
  | .onControlledManual j e :: rest =>
      if j = i then e :: projControlledManual i rest else projControlledManual i rest
  | _ :: rest => projControlledManual i rest

theorem interruptibleRun_append (t l : List IEvent) :
    interruptibleRun (t ++ l) = l.foldl interruptibleStep (interruptibleRun t) := by
  simp [interruptibleRun, List.foldl_append]

theorem IGood_init : IGood interruptibleInit := by
  intro p hp
  simp [interruptibleInit] at hp

theorem IGood_step (s : InterruptibleState) (e : IEvent) (hs : IGood s) :
    IGood (interruptibleStep s e) := by
  cases e with
  | invoke id =>
      by_cases hcur : s.currentRequest.isSome
      · intro p hp
        simp [interruptibleStep, hcur] at hp
      · have hnone : s.currentRequest = none := Option.not_isSome_iff_eq_none.mp hcur
        have hpend : s.pending = [] := by
          cases hh : s.pending with
          | nil => rfl
          | cons q l =>
              exfalso
              have := (hs q (by simp [hh])).1
              rw [hnone] at this
              exact Option.noConfusion this
        by_cases hab : s.aborted
        · intro p hp
          simp [interruptibleStep, hcur, hab, hpend] at hp
        · intro p hp
          simp [interruptibleStep, hcur, hab, hpend] at hp
          subst hp
          have hab2 : s.aborted = false := by
            cases hh : s.aborted
            · rfl
            · exact absurd hh hab
          simp [interruptibleStep, hcur, hab, hpend, hab2]
  | fetchArrive id =>
      by_cases hmem : (id, FetchStage.fetching) ∈ s.pending
      · obtain ⟨hcur, hab, hpend⟩ := hs _ hmem
        intro p hp
        simp [interruptibleStep, hmem, hpend] at hp
        subst hp
        simp [interruptibleStep, hmem, hpend, hcur, hab]
      · intro p hp
        simp only [interruptibleStep, if_neg hmem] at hp ⊢
        exact hs p hp
  | jsonOk id v =>
      by_cases hmem : (id, FetchStage.jsonReading) ∈ s.pending
      · obtain ⟨hcur, hab, hpend⟩ := hs _ hmem
        intro p hp
        simp [interruptibleStep, hmem, hpend] at hp
      · intro p hp
        simp only [interruptibleStep, if_neg hmem] at hp ⊢
        exact hs p hp
  | extFail id msg =>
      by_cases hmem : id ∈ s.pending.map Prod.fst
      · obtain ⟨q, hq, hqid⟩ := List.mem_map.mp hmem
        obtain ⟨hcur, hab, hpend⟩ := hs _ hq
        intro p hp
        simp [interruptibleStep, hmem, hpend, ← hqid] at hp
      · intro p hp
        simp only [interruptibleStep, if_neg hmem] at hp ⊢
        exact hs p hp

theorem IGood_run (t : List IEvent) : IGood (interruptibleRun t) := by
  suffices h : ∀ s, IGood s → IGood (t.foldl interruptibleStep s) from
    h interruptibleInit IGood_init
  induction t with
  | nil => intro s hs; exact hs
  | cons e rest ih =>
      intro s hs
      exact ih (interruptibleStep s e) (IGood_step s e hs)

theorem lookup_append_left_none {β : Type} (l1 l2 : List (Nat × β)) (a : Nat)
    (h : l1.lookup a = none) : (l1 ++ l2).lookup a = l2.lookup a := by
  induction l1 with
  | nil => rfl
  | cons p rest ih =>
      obtain ⟨k, v⟩ := p
      cases hbk : a == k with
      | true => simp [List.lookup, hbk] at h
      | false =>
          simp only [List.cons_append, List.lookup, hbk] at h ⊢
          exact ih h

theorem preempt_supersession_kills_successor :
    (interruptibleRun [.invoke 0, .invoke 1, .fetchArrive 1, .jsonOk 1 (.num 7)]).outcome 0
        = some (.rejected .abortError) ∧
    (interruptibleRun [.invoke 0, .invoke 1, .fetchArrive 1, .jsonOk 1 (.num 7)]).outcome 1
        = some (.rejected .abortError) := by decide

theorem preempt_shared_signal_poisons_later_invocations :
    (interruptibleRun [.invoke 0, .invoke 1]).aborted = true ∧
    (interruptibleRun [.invoke 0, .invoke 1, .invoke 2, .fetchArrive 2,
        .jsonOk 2 (.num 9)]).outcome 2
      = some (.rejected .abortError) := by decide

theorem preempt_cancellation_is_rejection_cex :
    (interruptibleRun [.invoke 0, .invoke 1]).outcome 0
        = some (.rejected .abortError) ∧
    ((interruptibleRun [.invoke 0, .invoke 1]).outcome 0).map JsOutcome.isResolved
        = some false := by decide

theorem preempt_abort_rejects_other_failures_pass (t : List IEvent) (id j : Nat)
    (st : FetchStage) (msg : String)
    (hp : (id, st) ∈ (interruptibleRun t).pending)
    (hn : (interruptibleRun t).outcome id = none) :
    (interruptibleRun (t ++ [IEvent.invoke j])).outcome id
        = some (JsOutcome.rejected JsErr.abortError) ∧
    (interruptibleRun (t ++ [IEvent.extFail id msg])).outcome id
        = some (JsOutcome.rejected (JsErr.other msg)) := by
  have hg := IGood_run t
  obtain ⟨hcur, hab, hpend⟩ := hg _ hp
  have hn2 : (interruptibleRun t).outcomes.lookup id = none := hn
  constructor
  · rw [interruptibleRun_append]
    simp only [List.foldl_cons, List.foldl_nil]
    simp only [interruptibleStep, hcur, Option.isSome_some, if_true]
    simp only [InterruptibleState.outcome, hpend]
    rw [List.append_assoc, lookup_append_left_none _ _ _ hn2]
    simp [List.lookup]
  · rw [interruptibleRun_append]
    simp only [List.foldl_cons, List.foldl_nil]
    have hmem : id ∈ (interruptibleRun t).pending.map Prod.fst := by
      rw [hpend]; simp
    simp only [interruptibleStep, if_pos hmem]
    simp only [InterruptibleState.outcome]
    rw [lookup_append_left_none _ _ _ hn2]
    simp [List.lookup]

theorem preempt_abort_rejects_other_failures_pass_witness :
    (interruptibleRun ([IEvent.invoke 0] ++ [IEvent.invoke 1])).outcome 0
        = some (JsOutcome.rejected JsErr.abortError) ∧
    (interruptibleRun ([IEvent.invoke 0] ++ [IEvent.extFail 0 "boom"])).outcome 0
        = some (JsOutcome.rejected (JsErr.other "boom")) :=
  preempt_abort_rejects_other_failures_pass [.invoke 0] 0 1 .fetching "boom"
    (by decide) (by decide)

theorem preempt_clear_only_active (t : List IEvent) (e : IEvent)
    (h : (interruptibleRun (t ++ [e])).currentRequest = none) :
    (interruptibleRun t).currentRequest = none ∨
      ∃ id v, e = IEvent.jsonOk id v ∧
        (interruptibleRun t).currentRequest = some id ∧
        (id, FetchStage.jsonReading) ∈ (interruptibleRun t).pending := by
  have hg : IGood (interruptibleRun t) := IGood_run t
  rw [interruptibleRun_append] at h
  simp only [List.foldl_cons, List.foldl_nil] at h
  cases e with
  | invoke id =>
      exfalso
      by_cases hcur : (interruptibleRun t).currentRequest.isSome
      · simp [interruptibleStep, hcur] at h
      · by_cases hab : (interruptibleRun t).aborted
        · simp [interruptibleStep, hcur, hab] at h
        · simp [interruptibleStep, hcur, hab] at h
  | fetchArrive id =>
      left
      by_cases hmem : (id, FetchStage.fetching) ∈ (interruptibleRun t).pending
      · simpa [interruptibleStep, hmem] using h
      · simpa [interruptibleStep, hmem] using h
  | jsonOk id v =>
      by_cases hmem : (id, FetchStage.jsonReading) ∈ (interruptibleRun t).pending
      · exact Or.inr ⟨id, v, rfl, (hg _ hmem).1, hmem⟩
      · left
        simpa [interruptibleStep, hmem] using h
  | extFail id msg =>
      left
      by_cases hmem : id ∈ (interruptibleRun t).pending.map Prod.fst
      · simpa [interruptibleStep, hmem] using h
      · simpa [interruptibleStep, hmem] using h

theorem preempt_clear_only_active_witness :
    (interruptibleRun [IEvent.invoke 0, IEvent.fetchArrive 0]).currentRequest = none ∨
      ∃ id v, IEvent.jsonOk 0 (JsValue.num 1) = IEvent.jsonOk id v ∧
        (interruptibleRun [IEvent.invoke 0, IEvent.fetchArrive 0]).currentRequest = some id ∧
        (id, FetchStage.jsonReading) ∈ (interruptibleRun [IEvent.invoke 0, IEvent.fetchArrive 0]).pending :=
  preempt_clear_only_active [.invoke 0, .fetchArrive 0] (.jsonOk 0 (.num 1)) (by decide)

theorem controlledRun_append (t l : List GEvent) :
    controlledRun (t ++ l) = l.foldl controlledStep (controlledRun t) := by
  simp [controlledRun, List.foldl_append]

theorem controlledManualRun_append (t l : List MEvent) :
    controlledManualRun (t ++ l) = l.foldl controlledManualStep (controlledManualRun t) := by
  simp [controlledManualRun, List.foldl_append]

theorem GInv_init : GInv controlledInit := by
  intro id hid
  simp [controlledInit] at hid

theorem GInv_step (s : ControlledState) (e : GEvent) (hs : GInv s) :
    GInv (controlledStep s e) := by
  cases e with
  | invoke id =>
      by_cases hb : s.allowRequests
      · have hpend : s.pending = [] := by
          cases hh : s.pending with
          | nil => rfl
          | cons q l =>
              exfalso
              have := (hs q (by simp [hh])).1
              rw [hb] at this
              exact Bool.noConfusion this
        intro k hk
        simp [controlledStep, hb, hpend] at hk
        subst hk
        simp [controlledStep, hb, hpend]
      · intro k hk
        simp only [controlledStep, if_neg hb] at hk ⊢
        exact hs k hk
  | settleOk id v =>
      by_cases hmem : id ∈ s.pending
      · obtain ⟨hb, hpend⟩ := hs _ hmem
        intro k hk
        simp [controlledStep, hmem, hpend] at hk
      · intro k hk
        simp only [controlledStep, if_neg hmem] at hk ⊢
        exact hs k hk
  | settleErr id msg =>
      by_cases hmem : id ∈ s.pending
      · obtain ⟨hb, hpend⟩ := hs _ hmem
        intro k hk
        simp [controlledStep, hmem, hpend] at hk
      · intro k hk
        simp only [controlledStep, if_neg hmem] at hk ⊢
        exact hs k hk

theorem GInv_run (t : List GEvent) : GInv (controlledRun t) := by
  suffices h : ∀ s, GInv s → GInv (t.foldl controlledStep s) from
    h controlledInit GInv_init
  induction t with
  | nil => intro s hs; exact hs
  | cons e rest ih =>
      intro s hs
      exact ih (controlledStep s e) (GInv_step s e hs)

theorem controlled_gate_admission (t : List GEvent) (id : Nat) :
    ((controlledRun t).allowRequests = false →
      (controlledRun (t ++ [GEvent.invoke id])).outcomes
          = (controlledRun t).outcomes ++ [(id, JsOutcome.resolved (JsValue.bool false))] ∧
      (controlledRun (t ++ [GEvent.invoke id])).pending = (controlledRun t).pending) ∧
    ((controlledRun t).allowRequests = true →
      (controlledRun (t ++ [GEvent.invoke id])).allowRequests = false ∧
      (controlledRun (t ++ [GEvent.invoke id])).pending = (controlledRun t).pending ++ [id]) ∧
    (controlledRun t).pending.length ≤ 1 := by
  refine ⟨?_, ?_, ?_⟩
  · intro hb
    rw [controlledRun_append]
    simp [controlledStep, hb]
  · intro hb
    rw [controlledRun_append]
    simp [controlledStep, hb]
  · cases hh : (controlledRun t).pending with
    | nil => simp
    | cons q l =>
        have hpend := ((GInv_run t) q (by simp [hh])).2
        rw [hh] at hpend
        rw [hpend]
        simp

theorem controlled_gate_admission_witness :
    (controlledRun ([GEvent.invoke 0] ++ [GEvent.invoke 1])).outcomes
        = (controlledRun [GEvent.invoke 0]).outcomes
            ++ [(1, JsOutcome.resolved (JsValue.bool false))] ∧
    (controlledRun ([GEvent.invoke 0] ++ [GEvent.invoke 1])).pending
        = (controlledRun [GEvent.invoke 0]).pending :=
  (controlled_gate_admission [GEvent.invoke 0] 1).1 (by decide)

theorem controlled_failure_leaves_gate_closed_cex :
    (controlledRun [.invoke 0, .settleErr 0 "boom"]).allowRequests = false ∧
    (controlledRun [.invoke 0, .settleErr 0 "boom", .invoke 1]).outcome 1
        = some (.resolved (.bool false)) := by decide

theorem controlled_release_on_success_only (t : List GEvent) (id j : Nat) (v : JsValue)
    (msg : String) (hp : id ∈ (controlledRun t).pending) :
    ((controlledRun (t ++ [GEvent.settleOk id v])).allowRequests = true ∧
      (controlledRun (t ++ [GEvent.settleOk id v, GEvent.invoke j])).pending = [j]) ∧
    ((controlledRun (t ++ [GEvent.settleErr id msg])).allowRequests = false ∧
      (controlledRun (t ++ [GEvent.settleErr id msg, GEvent.invoke j])).outcomes
        = (controlledRun (t ++ [GEvent.settleErr id msg])).outcomes
            ++ [(j, JsOutcome.resolved (JsValue.bool false))]) := by
  obtain ⟨hb, hpend⟩ := (GInv_run t) _ hp
  refine ⟨⟨?_, ?_⟩, ?_, ?_⟩
  · rw [controlledRun_append]
    simp [controlledStep, hp]
  · rw [controlledRun_append]
    simp [controlledStep, hp, hpend]
  · rw [controlledRun_append]
    simp [controlledStep, hp, hb]
  · rw [controlledRun_append, controlledRun_append]
    simp [controlledStep, hp, hb, hpend]

theorem controlled_release_on_success_only_witness :
    ((controlledRun ([GEvent.invoke 0] ++ [GEvent.settleOk 0 (JsValue.num 2)])).allowRequests = true ∧
      (controlledRun ([GEvent.invoke 0]
          ++ [GEvent.settleOk 0 (JsValue.num 2), GEvent.invoke 1])).pending = [1]) ∧
    ((controlledRun ([GEvent.invoke 0] ++ [GEvent.settleErr 0 "boom"])).allowRequests = false ∧
      (controlledRun ([GEvent.invoke 0]
          ++ [GEvent.settleErr 0 "boom", GEvent.invoke 1])).outcomes
        = (controlledRun ([GEvent.invoke 0] ++ [GEvent.settleErr 0 "boom"])).outcomes
            ++ [(1, JsOutcome.resolved (JsValue.bool false))]) :=
  controlled_release_on_success_only [GEvent.invoke 0] 0 1 (JsValue.num 2) "boom" (by decide)

theorem controlled_manual_release_gating (t : List MEvent) (id j k : Nat) (v : JsValue)
    (hp : id ∈ (controlledManualRun t).pending)
    (hb : (controlledManualRun t).allowRequests = false) :
    ((controlledManualRun (t ++ [MEvent.settleOk id v, MEvent.invoke j])).outcomes
        = (controlledManualRun (t ++ [MEvent.settleOk id v])).outcomes
            ++ [(j, JsOutcome.resolved (JsValue.bool false))]) ∧
    ((controlledManualRun (t ++ [MEvent.settleOk id v,
        MEvent.allowMoreRequests])).allowRequests = true) ∧
    ((controlledManualRun (t ++ [MEvent.settleOk id v, MEvent.allowMoreRequests,
        MEvent.invoke k])).pending
      = (controlledManualRun (t ++ [MEvent.settleOk id v])).pending ++ [k]) := by
  refine ⟨?_, ?_, ?_⟩
  · rw [controlledManualRun_append, controlledManualRun_append]
    simp [controlledManualStep, hp, hb]
  · rw [controlledManualRun_append]
    simp [controlledManualStep, hp]
  · rw [controlledManualRun_append, controlledManualRun_append]
    simp [controlledManualStep, hp]

theorem controlled_manual_release_gating_witness :
    ((controlledManualRun ([MEvent.invoke 0]
        ++ [MEvent.settleOk 0 JsValue.null, MEvent.invoke 1])).outcomes
      = (controlledManualRun ([MEvent.invoke 0] ++ [MEvent.settleOk 0 JsValue.null])).outcomes
          ++ [(1, JsOutcome.resolved (JsValue.bool false))]) ∧
    ((controlledManualRun ([MEvent.invoke 0] ++ [MEvent.settleOk 0 JsValue.null,
        MEvent.allowMoreRequests])).allowRequests = true) ∧
    ((controlledManualRun ([MEvent.invoke 0] ++ [MEvent.settleOk 0 JsValue.null,
        MEvent.allowMoreRequests, MEvent.invoke 2])).pending
      = (controlledManualRun ([MEvent.invoke 0]
          ++ [MEvent.settleOk 0 JsValue.null])).pending ++ [2]) :=
  controlled_manual_release_gating [MEvent.invoke 0] 0 1 2 JsValue.null
    (by decide) (by decide)

theorem controlled_suppressed_marker_collision_cex :
    (controlledRun [.invoke 0, .invoke 1, .settleOk 0 (.bool false)]).outcome 1
        = some (.resolved (.bool false)) ∧
    (controlledRun [.invoke 0, .invoke 1, .settleOk 0 (.bool false)]).outcome 0
        = some (.resolved (.bool false)) := by decide

theorem controlled_outcome_trichotomy (t : List GEvent) (id : Nat) (r : JsOutcome)
    (h : (id, r) ∈ (controlledRun t).outcomes) :
    (∃ v, r = JsOutcome.resolved v ∧ GEvent.settleOk id v ∈ t) ∨
      r = JsOutcome.resolved (JsValue.bool false) ∨
      (∃ msg, r = JsOutcome.rejected (JsErr.other msg) ∧ GEvent.settleErr id msg ∈ t) := by
  induction t using List.reverseRecOn with
  | nil => simp [controlledRun, controlledInit] at h
  | append_singleton l e ih =>
      have weaken :
          (∃ v, r = JsOutcome.resolved v ∧ GEvent.settleOk id v ∈ l) ∨
            r = JsOutcome.resolved (JsValue.bool false) ∨
            (∃ msg, r = JsOutcome.rejected (JsErr.other msg) ∧ GEvent.settleErr id msg ∈ l) →
          (∃ v, r = JsOutcome.resolved v ∧ GEvent.settleOk id v ∈ l ++ [e]) ∨
            r = JsOutcome.resolved (JsValue.bool false) ∨
            (∃ msg, r = JsOutcome.rejected (JsErr.other msg) ∧ GEvent.settleErr id msg ∈ l ++ [e]) := by
        rintro (⟨v, hv, hm⟩ | h2 | ⟨m, hm1, hm2⟩)
        · exact Or.inl ⟨v, hv, List.mem_append_left _ hm⟩
        · exact Or.inr (Or.inl h2)
        · exact Or.inr (Or.inr ⟨m, hm1, List.mem_append_left _ hm2⟩)
      rw [controlledRun_append] at h
      simp only [List.foldl_cons, List.foldl_nil] at h
      cases e with
      | invoke j =>
          by_cases hb : (controlledRun l).allowRequests
          · simp only [controlledStep, if_pos hb] at h
            exact weaken (ih h)
          · simp only [controlledStep, if_neg hb] at h
            rcases List.mem_append.mp h with h0 | h1
            · exact weaken (ih h0)
            · simp at h1
              exact Or.inr (Or.inl h1.2)
      | settleOk j v0 =>
          by_cases hmem : j ∈ (controlledRun l).pending
          · simp only [controlledStep, if_pos hmem] at h
            rcases List.mem_append.mp h with h0 | h1
            · exact weaken (ih h0)
            · simp at h1
              exact Or.inl ⟨v0, h1.2, by
                rw [h1.1]
                exact List.mem_append_right _ (by simp)⟩
          · simp only [controlledStep, if_neg hmem] at h
            exact weaken (ih h)
      | settleErr j msg =>
          by_cases hmem : j ∈ (controlledRun l).pending
          · simp only [controlledStep, if_pos hmem] at h
            rcases List.mem_append.mp h with h0 | h1
            · exact weaken (ih h0)
            · simp at h1
              exact Or.inr (Or.inr ⟨msg, h1.2, by
                rw [h1.1]
                exact List.mem_append_right _ (by simp)⟩)
          · simp only [controlledStep, if_neg hmem] at h
            exact weaken (ih h)

theorem controlled_outcome_trichotomy_witness :
    (∃ v, JsOutcome.resolved (JsValue.bool false) = JsOutcome.resolved v ∧
        GEvent.settleOk 1 v ∈ [GEvent.invoke 0, GEvent.invoke 1]) ∨
      JsOutcome.resolved (JsValue.bool false) = JsOutcome.resolved (JsValue.bool false) ∨
      (∃ msg, JsOutcome.resolved (JsValue.bool false) = JsOutcome.rejected (JsErr.other msg) ∧
        GEvent.settleErr 1 msg ∈ [GEvent.invoke 0, GEvent.invoke 1]) :=
  controlled_outcome_trichotomy [GEvent.invoke 0, GEvent.invoke 1] 1
    (JsOutcome.resolved (JsValue.bool false)) (by decide)

theorem controlled_suppressed_invoke_frame (t : List GEvent) (tm : List MEvent) (id j : Nat)
    (hb : (controlledRun t).allowRequests = false)
    (hbm : (controlledManualRun tm).allowRequests = false) :
    ((controlledRun (t ++ [GEvent.invoke id])).allowRequests
        = (controlledRun t).allowRequests ∧
      (controlledRun (t ++ [GEvent.invoke id])).pending = (controlledRun t).pending ∧
      (controlledRun (t ++ [GEvent.invoke id])).outcomes
        = (controlledRun t).outcomes ++ [(id, JsOutcome.resolved (JsValue.bool false))]) ∧
    ((controlledManualRun (tm ++ [MEvent.invoke j])).allowRequests
        = (controlledManualRun tm).allowRequests ∧
      (controlledManualRun (tm ++ [MEvent.invoke j])).pending
        = (controlledManualRun tm).pending ∧
      (controlledManualRun (tm ++ [MEvent.invoke j])).outcomes
        = (controlledManualRun tm).outcomes
            ++ [(j, JsOutcome.resolved (JsValue.bool false))]) := by
  constructor
  · rw [controlledRun_append]
    simp [controlledStep, hb]
  · rw [controlledManualRun_append]
    simp [controlledManualStep, hbm]

theorem controlled_suppressed_invoke_frame_witness :
    ((controlledRun ([GEvent.invoke 0] ++ [GEvent.invoke 1])).allowRequests
        = (controlledRun [GEvent.invoke 0]).allowRequests ∧
      (controlledRun ([GEvent.invoke 0] ++ [GEvent.invoke 1])).pending
        = (controlledRun [GEvent.invoke 0]).pending ∧
      (controlledRun ([GEvent.invoke 0] ++ [GEvent.invoke 1])).outcomes
        = (controlledRun [GEvent.invoke 0]).outcomes
            ++ [(1, JsOutcome.resolved (JsValue.bool false))]) ∧
    ((controlledManualRun ([MEvent.invoke 0] ++ [MEvent.invoke 1])).allowRequests
        = (controlledManualRun [MEvent.invoke 0]).allowRequests ∧
      (controlledManualRun ([MEvent.invoke 0] ++ [MEvent.invoke 1])).pending
        = (controlledManualRun [MEvent.invoke 0]).pending ∧
      (controlledManualRun ([MEvent.invoke 0] ++ [MEvent.invoke 1])).outcomes
        = (controlledManualRun [MEvent.invoke 0]).outcomes
            ++ [(1, JsOutcome.resolved (JsValue.bool false))]) :=
  controlled_suppressed_invoke_frame [GEvent.invoke 0] [MEvent.invoke 0] 1 1
    (by decide) (by decide)

theorem worldRun_proj_aux (t : List WEvent) :
    ∀ (w : CoordinatorWorld) (i : Nat),
      ((t.foldl worldStep w).interruptible i
          = (projInterruptible i t).foldl interruptibleStep (w.interruptible i)) ∧
      ((t.foldl worldStep w).controlled i
          = (projControlled i t).foldl controlledStep (w.controlled i)) ∧
      ((t.foldl worldStep w).controlledManual i
          = (projControlledManual i t).foldl controlledManualStep (w.controlledManual i)) := by
  induction t with
  | nil =>
      intro w i
      exact ⟨rfl, rfl, rfl⟩
  | cons e rest ih =>
      intro w i
      cases e with
      | onInterruptible j e0 =>
          obtain ⟨ih1, ih2, ih3⟩ := ih (worldStep w (.onInterruptible j e0)) i
          refine ⟨?_, ?_, ?_⟩
          · rw [List.foldl_cons, ih1]
            by_cases hji : j = i
            · subst hji
              simp [projInterruptible, worldStep]
            · simp [projInterruptible, worldStep, hji, Ne.symm hji]
          · rw [List.foldl_cons, ih2]
            simp [projControlled, worldStep]
          · rw [List.foldl_cons, ih3]
            simp [projControlledManual, worldStep]
      | onControlled j e0 =>
          obtain ⟨ih1, ih2, ih3⟩ := ih (worldStep w (.onControlled j e0)) i
          refine ⟨?_, ?_, ?_⟩
          · rw [List.foldl_cons, ih1]
            simp [projInterruptible, worldStep]
          · rw [List.foldl_cons, ih2]
            by_cases hji : j = i
            · subst hji
              simp [projControlled, worldStep]
            · simp [projControlled, worldStep, hji, Ne.symm hji]
          · rw [List.foldl_cons, ih3]
            simp [projControlledManual, worldStep]
      | onControlledManual j e0 =>
          obtain ⟨ih1, ih2, ih3⟩ := ih (worldStep w (.onControlledManual j e0)) i
          refine ⟨?_, ?_, ?_⟩
          · rw [List.foldl_cons, ih1]
            simp [projInterruptible, worldStep]
          · rw [List.foldl_cons, ih2]
            simp [projControlled, worldStep]
          · rw [List.foldl_cons, ih3]
            by_cases hji : j = i
            · subst hji
              simp [projControlledManual, worldStep]
            · simp [projControlledManual, worldStep, hji, Ne.symm hji]

theorem coordinator_instance_independence (t : List WEvent) (i : Nat) :
    (worldRun t).interruptible i = interruptibleRun (projInterruptible i t) ∧
    (worldRun t).controlled i = controlledRun (projControlled i t) ∧
    (worldRun t).controlledManual i = controlledManualRun (projControlledManual i t) :=
  worldRun_proj_aux t worldInit i
